import Mathlib

/-!
# Verification of the zio I/O-pipeline core (module/zfs/zio.c)

A shallow embedding of the data model and algorithms of the request-execution
core: error ranking, parent/child DAG counters, the pipeline dispatch loop,
gang-tree walks, dedup write coordination, allocation throttling, nop-write
detection and the completion/recovery disposition logic.  Each definition is
translated from the corresponding C function in `module/zfs/zio.c`; the few
constants whose definitions live outside the analysed sources (stage masks
from `zio_impl.h`, the metaslab reservation primitive) are modelled from the
specification and marked as such in their doc comments.
-/

/- ==========================================================================
   Error rank (`zio_worst_error`, zio.c lines 5215-5230)
   ========================================================================== -/

/-- Linux errno value for a generic I/O failure (`EIO`). -/
def eio : Nat := 5

/-- Linux errno value for "no such device or address" (`ENXIO`). -/
def enxio : Nat := 6

/-- errno value used by ZFS for a checksum mismatch (`ECKSUM` = `EBADE`). -/
def ecksum : Nat := 52

/-- Linux errno value for space exhaustion (`ENOSPC`). -/
def enospc : Nat := 28

/-- Linux errno value for "try again" (`EAGAIN`). -/
def eagain : Nat := 11

/-- The static rank table of `zio_worst_error`:
`static int zio_error_rank[] = { 0, ENXIO, ECKSUM, EIO };`. -/
def zio_error_rank : List Nat := [0, enxio, ecksum, eio]

/-- The search loop of `zio_worst_error`: the index of the first table entry
equal to `e`, or the table length when no entry matches (the loop runs off
the end). -/
def errorRankIdx (e : Nat) : List Nat → Nat
  | [] => 0
  | x :: xs => if e = x then 0 else errorRankIdx e xs + 1

/-- `zio_worst_error(e1, e2)`: rank both errors and keep the one of strictly
greater rank, preferring `e2` on ties. -/
def zio_worst_error (e1 e2 : Nat) : Nat :=
  if errorRankIdx e1 zio_error_rank > errorRankIdx e2 zio_error_rank then e1 else e2

/- ==========================================================================
   Parent/child DAG counters (`zio_add_child_impl` lines 748-787,
   `zio_notify_parent` lines 844-899, `zio_ready` / `zio_done` milestones)
   ========================================================================== -/

/-- The child kinds of an IO node (`ZIO_CHILD_*`).  Indexes the first axis of
`pio->io_children`. -/
inductive ZioChildType where
  | logical
  | gang
  | ddt
  | vdev
deriving DecidableEq

/-- The wait kinds (`ZIO_WAIT_READY`, `ZIO_WAIT_DONE`).  Indexes the second
axis of `pio->io_children` and `zio->io_state`. -/
inductive ZioWaitType where
  | ready
  | done
deriving DecidableEq

/-- The slice of a child zio that the DAG counters read: its child type and
its `io_state` milestone bits. -/
structure ZioChild where
  io_child_type : ZioChildType
  io_state : ZioWaitType → Bool

/-- The slice of a parent zio that the DAG counters live in: its linked
children and its `io_children[childType][waitType]` pending counters. -/
structure ParentState where
  children : List ZioChild
  io_children : ZioChildType → ZioWaitType → Int

/-- The counter update of `zio_add_child_impl`:
`for (w = 0; w < ZIO_WAIT_TYPES; w++) countp[w] += !cio->io_state[w];`
(the counter for wait kind `w` grows only when the child has not yet
recorded milestone `w`). -/
def addChildCounters (cnt : ZioChildType → ZioWaitType → Int) (c : ZioChild) :
    ZioChildType → ZioWaitType → Int :=
  fun ct w => if ct = c.io_child_type ∧ c.io_state w = false then cnt ct w + 1 else cnt ct w

/-- `zio_add_child`: link the child at the head of the parent's child list
(`list_insert_head`) and bump the pending counters. -/
def zio_add_child (s : ParentState) (c : ZioChild) : ParentState :=
  ⟨c :: s.children, addChildCounters s.io_children c⟩

/-- The counter update of `zio_notify_parent`: `(*countp)--` on the counter
selected by the notifying child's type and the wait kind. -/
def notifyCounters (cnt : ZioChildType → ZioWaitType → Int)
    (ct : ZioChildType) (w : ZioWaitType) : ZioChildType → ZioWaitType → Int :=
  fun ct' w' => if ct' = ct ∧ w' = w then cnt ct' w' - 1 else cnt ct' w'

/-- Recording a milestone on a child: `zio->io_state[w] = 1` (in `zio_ready`
for `ZIO_WAIT_READY` and `zio_done` for `ZIO_WAIT_DONE`). -/
def setChildState (c : ZioChild) (w : ZioWaitType) : ZioChild :=
  { c with io_state := fun w' => if w' = w then true else c.io_state w' }

/-- Labels for the DAG transitions visible to one parent. -/
inductive ZioStepLabel where
  | add (c : ZioChild)
  | notify (i : Nat) (w : ZioWaitType)

/-- The DAG transitions of one parent: `add` links a new child via
`zio_add_child`; `notify i w` is child `i` reaching milestone `w` (it sets
its own `io_state[w]`, which was necessarily still clear, and decrements the
parent's matching counter via `zio_notify_parent`). -/
inductive ZioStep : ParentState → ZioStepLabel → ParentState → Prop where
  | add (s : ParentState) (c : ZioChild) : ZioStep s (.add c) (zio_add_child s c)
  | notify (s : ParentState) (i : Nat) (w : ZioWaitType) (c : ZioChild)
      (hget : s.children[i]? = some c) (hnot : c.io_state w = false) :
      ZioStep s (.notify i w)
        ⟨s.children.set i (setChildState c w),
         notifyCounters s.io_children c.io_child_type w⟩

/-- One parent-visible transition, with the label abstracted. -/
def ZioStepAny (s s' : ParentState) : Prop := ∃ l, ZioStep s l s'

/-- The number of linked children of kind `ct` that have not yet recorded
milestone `w`. -/
def pendingCount (s : ParentState) (ct : ZioChildType) (w : ZioWaitType) : Nat :=
  s.children.countP (fun c => c.io_child_type = ct ∧ c.io_state w = false)

/-- The counter invariant: every `io_children` counter equals the number of
linked, not-yet-satisfied children of its kind. -/
def CounterInv (s : ParentState) : Prop :=
  ∀ ct w, s.io_children ct w = pendingCount s ct w

/- ==========================================================================
   Pipeline dispatch loop (`__zio_execute` lines 2426-2487,
   `zio_wait_for_children` lines 819-840)
   ========================================================================== -/

/-- Stage bit positions are the indices of the `zio_pipeline` handler table
(zio.c lines 5743-5770): `ZIO_STAGE_OPEN` is bit 0 and `ZIO_STAGE_DONE` is
bit 26, the highest stage. -/
def ZIO_STAGE_DONE_BIT : Nat := 26

/-- The execution state of one IO node seen by the dispatch loop: the bit
position of `io_stage` and the `io_pipeline` bitmask of enabled stages. -/
structure ZState where
  io_stage : Nat
  io_pipeline : Nat
deriving DecidableEq

/-- The `do { stage <<= 1; } while ((stage & pipeline) == 0)` search of
`__zio_execute`, on bit positions: starting above `stage`, find the first
enabled bit, giving up after `fuel` shifts (the C loop relies on
`ZIO_STAGE_DONE` always being enabled to terminate). -/
def findNextStageAux (pipeline : Nat) : Nat → Nat → Option Nat
  | _, 0 => none
  | stage, fuel+1 =>
    if pipeline.testBit (stage+1) then some (stage+1)
    else findNextStageAux pipeline (stage+1) fuel

/-- The next-enabled-stage search bounded by the DONE bit. -/
def findNextStage (pipeline stage : Nat) : Option Nat :=
  findNextStageAux pipeline stage (ZIO_STAGE_DONE_BIT - stage)

/-- Outcome of running the dispatch loop on one node: the node reached a
terminal check with `io_stage = DONE` (`finished`), a stage handler returned
NULL — the node stalled on children or was handed to a task queue
(`stalled`) — or the supplied fuel ran out. -/
inductive ZioExecResult where
  | finished (z : ZState)
  | stalled (z : ZState)
  | fuelOut
deriving DecidableEq

/-- The `__zio_execute` loop: while `io_stage < ZIO_STAGE_DONE`, advance
`io_stage` to the next enabled stage and invoke its handler; `h s = false`
models the stage-`s` handler returning NULL (stall / hand-off), `h s = true`
models it returning the node to keep executing. -/
def zioExecute (h : Nat → Bool) : Nat → ZState → ZioExecResult
  | 0, _ => .fuelOut
  | fuel+1, z =>
    if z.io_stage < ZIO_STAGE_DONE_BIT then
      match findNextStage z.io_pipeline z.io_stage with
      | none => .stalled z
      | some s =>
        if h s then zioExecute h fuel ⟨s, z.io_pipeline⟩
        else .stalled ⟨s, z.io_pipeline⟩
    else .finished z

/-- The stall rewind of `zio_wait_for_children`: `zio->io_stage >>= 1` moves
the recorded stage back one bit position so that re-entry resumes at the
stalled stage. -/
def zio_wait_for_children_rewind (stage : Nat) : Nat := stage - 1

/- ==========================================================================
   Gang tree walk (`zio_gang_tree_issue` lines 3013-3049, `zio_free_gang`
   lines 2870-2883, `zio_dva_unallocate` lines 4385-4402)
   ========================================================================== -/

/-- The part of a block pointer the gang walks inspect: an identity (its
DVAs/checksum, abstracted to a tag) and the hole bit (`BP_IS_HOLE`). -/
structure Blkptr where
  ident : Nat
  isHole : Bool
deriving DecidableEq

mutual
/-- An assembled gang tree (`zio_gang_node_t`): `leaf` is a NULL `gn_child`
slot (the block pointer is a plain data member); `node slots` is a gang
header whose `gn_gbh` entries are the slot block pointers, each paired with
its subtree. -/
inductive GangNode where
  | leaf : GangNode
  | node (slots : GangSlots) : GangNode

/-- The slots of one gang header: the `gn_gbh` block pointer array zipped
with the `gn_child` subtree array. -/
inductive GangSlots where
  | nil : GangSlots
  | cons (bp : Blkptr) (child : GangNode) (rest : GangSlots) : GangSlots
end

/-- Whether a gang tree node is a NULL child pointer. -/
def GangNode.isLeaf : GangNode → Bool
  | .leaf => true
  | .node _ => false

mutual
/-- `zio_gang_tree_issue(pio, gn, bp, ...)`: fire the per-operation issue
callback (`zio_free_gang` on the free path) on `bp` itself, then walk the
header slots, skipping holes (`if (BP_IS_HOLE(gbp)) continue;`) and
recursing into each remaining slot.  The result lists the block pointers the
callback fires on, in order. -/
def zio_gang_tree_issue : GangNode → Blkptr → List Blkptr
  | .leaf, bp => [bp]
  | .node slots, bp => bp :: zio_gang_tree_issue_slots slots

/-- The `for (g = 0; g < gbh_nblkptrs(...); g++)` body of
`zio_gang_tree_issue`. -/
def zio_gang_tree_issue_slots : GangSlots → List Blkptr
  | .nil => []
  | .cons gbp child rest =>
    (if gbp.isHole then [] else zio_gang_tree_issue child gbp) ++
      zio_gang_tree_issue_slots rest
end

mutual
/-- All constituent block pointers of an assembled gang tree: the root
pointer and, recursively, every entry of every header. -/
def gangConstituents : GangNode → Blkptr → List Blkptr
  | .leaf, bp => [bp]
  | .node slots, bp => bp :: gangConstituentsSlots slots

/-- Constituents contributed by one header's slots. -/
def gangConstituentsSlots : GangSlots → List Blkptr
  | .nil => []
  | .cons gbp child rest => gangConstituents child gbp ++ gangConstituentsSlots rest
end

mutual
/-- Well-formedness of an assembled tree: a hole slot has no subtree
(`zio_gang_tree_assemble_done` only recurses into `BP_IS_GANG` entries, and
holes are never gang pointers). -/
def gangWf : GangNode → Bool
  | .leaf => true
  | .node slots => gangWfSlots slots

/-- Well-formedness of a header's slots. -/
def gangWfSlots : GangSlots → Bool
  | .nil => true
  | .cons gbp child rest =>
    (!gbp.isHole || child.isLeaf) && gangWf child && gangWfSlots rest
end

/-- The lower level of the synthetic gang tree: a nested gang header with
three data members. -/
def gangDemoSub : GangNode :=
  .node (.cons ⟨5, false⟩ .leaf (.cons ⟨6, false⟩ .leaf
    (.cons ⟨7, false⟩ .leaf .nil)))

/-- The synthetic gang tree of the spec's round-trip test: 5 data members
(2, 3 at the top level; 5, 6, 7 under the nested header 4) across 2 nesting
levels, plus one hole slot (8). -/
def gangDemoTree : GangNode :=
  .node (.cons ⟨2, false⟩ .leaf (.cons ⟨3, false⟩ .leaf
    (.cons ⟨4, false⟩ gangDemoSub (.cons ⟨8, true⟩ .leaf .nil))))

mutual
/-- `zio_dva_unallocate(zio, gn, bp)`: `metaslab_free` the pointer unless it
is a hole (`if (!BP_IS_HOLE(bp)) metaslab_free(...)`), then recurse into
every slot of the gang header — holes do not prune this recursion; their
subtrees are NULL in an assembled tree.  The result lists the freed block
pointers in order. -/
def zio_dva_unallocate : GangNode → Blkptr → List Blkptr
  | .leaf, bp => if bp.isHole then [] else [bp]
  | .node slots, bp =>
    (if bp.isHole then [] else [bp]) ++ zio_dva_unallocate_slots slots

/-- The `for (g = 0; ...)` recursion of `zio_dva_unallocate`. -/
def zio_dva_unallocate_slots : GangSlots → List Blkptr
  | .nil => []
  | .cons gbp child rest =>
    zio_dva_unallocate child gbp ++ zio_dva_unallocate_slots rest
end

/-- The fields of a completing zio that the gang-cleanup clause of `zio_done`
reads (lines 5584-5592): the final error, the reexecute/suspend marks in
`io_post`, whether the node is allocating (`IO_IS_ALLOCATING`), whether it is
its own gang leader, the `IO_REWRITE`/`NOPWRITE` flags, and the assembled
gang tree with its root block pointer. -/
structure GangDoneZio where
  io_error : Nat
  postReexecute : Bool
  postSuspend : Bool
  isAllocating : Bool
  gangLeaderSelf : Bool
  flagRewrite : Bool
  flagNopwrite : Bool
  io_gang_tree : GangNode
  io_bp : Blkptr

/-- The gang-cleanup clause of `zio_done`:
`if ((zio->io_error || (zio->io_post & (REEXECUTE|SUSPEND))) &&
IO_IS_ALLOCATING(zio) && zio->io_gang_leader == zio &&
!(zio->io_flags & (ZIO_FLAG_IO_REWRITE | ZIO_FLAG_NOPWRITE)))
zio_dva_unallocate(zio, zio->io_gang_tree, zio->io_bp);` followed
unconditionally by `zio_gang_tree_free(&zio->io_gang_tree)`.  Returns the
freed block pointers and the tree pointer after the free (always NULL). -/
def zio_done_gang_cleanup (z : GangDoneZio) : List Blkptr × Option GangNode :=
  if (z.io_error ≠ 0 ∨ z.postReexecute = true ∨ z.postSuspend = true) ∧
      z.isAllocating = true ∧ z.gangLeaderSelf = true ∧
      z.flagRewrite = false ∧ z.flagNopwrite = false then
    (zio_dva_unallocate z.io_gang_tree z.io_bp, none)
  else ([], none)

/- ==========================================================================
   Completion error disposition (`zio_done` lines 5528-5566,
   reexecute/suspend selection)
   ========================================================================== -/

/-- The `io_post` flag set read and written by `zio_done`
(`ZIO_POST_REEXECUTE`, `ZIO_POST_SUSPEND`, `ZIO_POST_DIO_CHKSUM_ERR`). -/
structure ZioPost where
  reexecute : Bool
  suspend : Bool
  dioChksumErr : Bool
deriving DecidableEq

/-- The operation kinds (`zio_type_t`). -/
inductive ZioType where
  | null
  | read
  | write
  | free
  | claim
  | flush
  | trim
deriving DecidableEq

/-- The inputs of the error-disposition block of `zio_done`: the final
error, the operation kind, whether this node is its own logical root,
`IO_IS_ALLOCATING`, the `CANFAIL` and `SCAN_THREAD` flags, the dedup
property, the pool load/failmode state, and the incoming `io_post` flags. -/
structure DoneErrZio where
  io_error : Nat
  io_type : ZioType
  logicalSelf : Bool
  isAllocating : Bool
  canfail : Bool
  scanThread : Bool
  dedup : Bool
  spaLoadNone : Bool
  failmodeContinue : Bool
  io_post : ZioPost

/-- The `if (zio->io_error && zio == zio->io_logical)` block of `zio_done`:
a dedup EAGAIN retries as non-dedup (reexecute); an allocating, non-CANFAIL
node without a recorded direct-I/O checksum failure reexecutes on any error
but ENOSPC and suspends on ENOSPC; a READ/FREE ENXIO outside scan on a fully
loaded, non-continue pool suspends; and any remaining non-CANFAIL failure
not already marked suspends. -/
def zio_done_error_disposition (z : DoneErrZio) : ZioPost :=
  if z.io_error ≠ 0 ∧ z.logicalSelf = true then
    let post0 := z.io_post
    let post1 :=
      if z.io_error = eagain ∧ z.isAllocating = true ∧ z.dedup = true then
        { post0 with reexecute := true }
      else post0
    let post2 :=
      if z.isAllocating = true ∧ z.canfail = false ∧ post1.dioChksumErr = false then
        (if z.io_error ≠ enospc then { post1 with reexecute := true }
         else { post1 with suspend := true })
      else post1
    let post3 :=
      if (z.io_type = .read ∨ z.io_type = .free) ∧ z.scanThread = false ∧
          z.io_error = enxio ∧ z.spaLoadNone = true ∧ z.failmodeContinue = false then
        { post2 with suspend := true }
      else post2
    if z.canfail = false ∧ post3.reexecute = false ∧ post3.suspend = false then
      { post3 with suspend := true }
    else post3
  else z.io_post

/- ==========================================================================
   Dedup write coordination (`zio_ddt_write` lines 3936-4076,
   `zio_ddt_child_write_ready` / `zio_ddt_child_write_done` lines 3672-3760)
   ========================================================================== -/

/-- The slice of a dedup-writing zio that `zio_ddt_write` reads. -/
structure DdtWriter where
  zp_copies : Nat
  ddtChild : Bool
  bpOverride : Bool
deriving DecidableEq

/-- One DDT entry's phys variant together with its in-flight IO state:
`ddt_phys_dva_count` (committed DVAs), the phys refcount, whether
`dde_lead_zio[p]` is set, the lead child write's parent chain (head = most
recently linked parent, per `list_insert_head`), the lead's adjusted
`zp_copies`, a count of physical child writes issued so far, and
`ddt_phys_is_gang`. -/
structure DdtEntryState where
  haveDvas : Nat
  refcnt : Nat
  lead : Bool
  leadParents : List DdtWriter
  leadCopies : Nat
  physWrites : Nat
  isGanged : Bool

/-- What `zio_ddt_write` did for the submitting writer. -/
inductive DdtWriteAction where
  | addref
  | joined
  | issued
  | regularWrite
deriving DecidableEq

/-- `zio_ddt_write`: no in-flight lead — serve from the entry when it has
enough DVAs (add a reference, no I/O), otherwise issue a child write for the
shortfall and become the lead; in-flight lead — slot in behind it when the
entry or the lead's parent already covers the request (`zio_add_child(zio,
dde_lead_zio[p])`, no I/O), otherwise issue a new lead for the remaining
shortfall, chaining the old lead as a child.  A ganged entry falls back to a
regular non-dedup write instead of issuing. -/
def zio_ddt_write (st : DdtEntryState) (w : DdtWriter) :
    DdtEntryState × DdtWriteAction :=
  if st.lead = false then
    if w.bpOverride = true ∧ st.haveDvas = 0 then
      ({ st with haveDvas := w.zp_copies, refcnt := st.refcnt + 1 }, .addref)
    else if st.haveDvas ≥ w.zp_copies then
      ({ st with refcnt := st.refcnt + 1 }, .addref)
    else if st.isGanged then
      (st, .regularWrite)
    else
      ({ st with
          lead := true
          leadParents := [w]
          leadCopies := w.zp_copies - st.haveDvas
          physWrites := st.physWrites + 1 }, .issued)
  else
    if st.haveDvas ≥ w.zp_copies then
      ({ st with leadParents := w :: st.leadParents }, .joined)
    else
      let parent_dvas :=
        match st.leadParents.head? with
        | some p => p.zp_copies
        | none => 0
      if parent_dvas ≥ w.zp_copies then
        ({ st with leadParents := w :: st.leadParents }, .joined)
      else if st.isGanged then
        (st, .regularWrite)
      else
        ({ st with
            lead := true
            leadParents := [w]
            leadCopies := w.zp_copies - parent_dvas
            physWrites := st.physWrites + 1 }, .issued)

/-- `zio_ddt_child_write_ready` on success: `ddt_phys_extend` publishes the
lead write's freshly allocated DVAs into the entry. -/
def zio_ddt_child_write_ready (st : DdtEntryState) : DdtEntryState :=
  { st with haveDvas := st.haveDvas + st.leadCopies }

/-- `zio_ddt_child_write_done` on success: the lead slot is cleared and one
reference is added per parent of the lead that is not itself a DDT child
write. -/
def zio_ddt_child_write_done (st : DdtEntryState) : DdtEntryState :=
  { st with
      lead := false
      leadParents := []
      refcnt := st.refcnt + st.leadParents.countP (fun p => !p.ddtChild) }

/-- The C5 scenario: a fresh entry, writer 1 submits, writer 2 submits while
writer 1's physical write is still the in-flight lead, then the lead reaches
ready and done successfully.  Returns the final entry state and the two
writers' actions. -/
def ddtTwoWriterRun (c1 c2 : Nat) :
    DdtEntryState × DdtWriteAction × DdtWriteAction :=
  let st0 : DdtEntryState := ⟨0, 0, false, [], 0, 0, false⟩
  let r1 := zio_ddt_write st0 ⟨c1, false, false⟩
  let r2 := zio_ddt_write r1.1 ⟨c2, false, false⟩
  (zio_ddt_child_write_done (zio_ddt_child_write_ready r2.1), r1.2, r2.2)

/- ==========================================================================
   Nop-write detection (`zio_nop_write` lines 3357-3421,
   `zio_write_override` lines 1397-1418)
   ========================================================================== -/

/-- The block-pointer fields `zio_nop_write` compares between the new block
pointer and `io_bp_orig`. -/
structure NopBp where
  checksumAlg : Nat
  compressAlg : Nat
  dedup : Bool
  encrypted : Bool
  isHole : Bool
  ndvas : Nat
  blk_cksum : Nat
deriving DecidableEq

/-- The slice of a rewriting zio that `zio_nop_write` reads and writes: the
new and previous block pointers, the requested copy count, the pipeline mask
(bit positions are the `zio_pipeline` table indices) and the
`ZIO_FLAG_NOPWRITE` flag. -/
structure NopZio where
  bp : NopBp
  bp_orig : NopBp
  zp_copies : Nat
  pipeline : Nat
  flagNopwrite : Bool
deriving DecidableEq

/-- Bit position of `ZIO_STAGE_DVA_ALLOCATE` in the `zio_pipeline` table. -/
def ZIO_STAGE_DVA_ALLOCATE_BIT : Nat := 17

/-- Bit position of `ZIO_STAGE_VDEV_IO_START` in the `zio_pipeline` table. -/
def ZIO_STAGE_VDEV_IO_START_BIT : Nat := 21

/-- Modelled from the spec: `ZIO_INTERLOCK_PIPELINE` is defined in
`zio_impl.h`, which is not among the analysed sources; per the spec, "a
no-op synchronization node uses only an interlock subset" of the stages, so
the mask enables only the READY (bit 20) and DONE (bit 26) stages — in
particular no allocation and no device stage. -/
def ZIO_INTERLOCK_PIPELINE : Nat := 2 ^ 20 + 2 ^ 26

/-- `zio_nop_write`: if the previous pointer exists, the checksum algorithm
is nop-write capable, neither pointer is encrypted, and checksum algorithm,
compression, dedup bit and copy count all match, then a matching content
checksum (and no previous DVA on an indirect vdev) reuses the previous
pointer verbatim and resets the pipeline to the interlock subset; otherwise
the zio continues unchanged toward allocation. -/
def zio_nop_write (nopwriteCapable : Nat → Bool) (anyIndirectVdev : Bool)
    (z : NopZio) : NopZio :=
  if z.bp_orig.isHole = true ∨ nopwriteCapable z.bp.checksumAlg = false ∨
      z.bp.encrypted = true ∨ z.bp_orig.encrypted = true ∨
      z.bp.checksumAlg ≠ z.bp_orig.checksumAlg ∨
      z.bp.compressAlg ≠ z.bp_orig.compressAlg ∨
      z.bp.dedup ≠ z.bp_orig.dedup ∨
      z.zp_copies ≠ z.bp_orig.ndvas then z
  else if z.bp.blk_cksum = z.bp_orig.blk_cksum then
    if anyIndirectVdev = true then z
    else { z with
            bp := z.bp_orig
            pipeline := ZIO_INTERLOCK_PIPELINE
            flagNopwrite := true }
  else z

/-- The write properties `zio_write_override` resets. -/
structure WriteProp where
  zp_dedup : Bool
  zp_nopwrite : Bool
  zp_brtwrite : Bool
  zp_copies : Nat
  zp_gang_copies : Nat
deriving DecidableEq

/-- The property update of `zio_write_override`: "nopwrite and dedup are
mutually exclusive", so requesting nopwrite clears the dedup property. -/
def zio_write_override_prop (zp : WriteProp) (copies gang_copies : Nat)
    (nopwrite brtwrite : Bool) : WriteProp :=
  { zp with
      zp_dedup := if nopwrite then false else zp.zp_dedup
      zp_nopwrite := nopwrite
      zp_brtwrite := brtwrite
      zp_copies := copies
      zp_gang_copies := gang_copies }

/- ==========================================================================
   Allocation throttle (`zio_dva_throttle` lines 4153-4188,
   `zio_io_to_allocate` lines 4118-4151, `zio_allocate_dispatch` lines
   4190-4208, `zio_dva_throttle_done` lines 5321-5370)
   ========================================================================== -/

/-- A throttled allocating writer: an identity and the priority key ordering
it in the allocator's AVL tree (`zio_alloc_compare`). -/
structure ThrottleZio where
  ident : Nat
  key : Nat
deriving DecidableEq

/-- The AVL order of `mca_tree`, abstracted to the priority key. -/
def throttleKeyLE (a b : ThrottleZio) : Prop := a.key ≤ b.key

instance : DecidableRel throttleKeyLE := fun a b => Nat.decLe a.key b.key

instance : IsTotal ThrottleZio throttleKeyLE := ⟨fun a b => Nat.le_total a.key b.key⟩

instance : IsTrans ThrottleZio throttleKeyLE := ⟨fun _ _ _ => Nat.le_trans⟩

/-- One allocator shard of one class (`metaslab_class_allocator_t`) plus the
modelled reservation budget.  Modelled from the spec:
`metaslab_class_throttle_reserve`/`_unreserve` live in `metaslab.c`, outside
the analysed sources; per the spec a reservation is "an advisory hold
against a class's in-flight allocation budget", so reserving succeeds only
while the in-flight count is below the limit and releasing frees one unit.
`dispatched` records the writers released to allocation, newest first. -/
structure ThrottleState where
  queued : List ThrottleZio
  inflight : Nat
  limit : Nat
  dispatched : List ThrottleZio

/-- `zio_io_to_allocate`: take `avl_first` of the tree (the head of the
sorted queue); if a reservation can be placed, remove it from the tree and
hand it out, else leave the queue untouched and hand out nothing. -/
def zio_io_to_allocate (st : ThrottleState) : Option ThrottleZio × ThrottleState :=
  match st.queued with
  | [] => (none, st)
  | z :: rest =>
    if st.inflight < st.limit then
      (some z, { st with
          queued := rest
          inflight := st.inflight + 1
          dispatched := z :: st.dispatched })
    else (none, st)

/-- The throttled path of `zio_dva_throttle`: `avl_add` the writer into the
priority tree, then `zio_io_to_allocate`; the caller continues with whatever
writer (possibly none, possibly a different one) got a reservation, without
ever blocking. -/
def zio_dva_throttle (st : ThrottleState) (z : ThrottleZio) :
    Option ThrottleZio × ThrottleState :=
  zio_io_to_allocate
    { st with queued := List.orderedInsert throttleKeyLE z st.queued }

/-- The `do { ... } while (more)` loop of `zio_allocate_dispatch`: keep
pulling reservations until one fails or the queue empties; the queue length
bounds the number of iterations. -/
def zio_allocate_dispatch_loop : Nat → ThrottleState → ThrottleState
  | 0, st => st
  | fuel+1, st =>
    match zio_io_to_allocate st with
    | (none, st') => st'
    | (some _, st') => zio_allocate_dispatch_loop fuel st'

/-- `zio_allocate_dispatch`. -/
def zio_allocate_dispatch (st : ThrottleState) : ThrottleState :=
  zio_allocate_dispatch_loop st.queued.length st

/-- `zio_dva_throttle_done`: release the completed writer's reservation
(`metaslab_class_throttle_unreserve`) and dispatch newly-eligible queued
writers. -/
def zio_dva_throttle_done (st : ThrottleState) : ThrottleState :=
  zio_allocate_dispatch { st with inflight := st.inflight - 1 }

/-- Iterated completions. -/
def doneIter : Nat → ThrottleState → ThrottleState
  | 0, st => st
  | n+1, st => doneIter n (zio_dva_throttle_done st)

/- ==========================================================================
   Theorems
   ========================================================================== -/

/-- Closed form of the rank computation over the concrete table. -/
theorem errorRankIdx_eq (e : Nat) :
    errorRankIdx e zio_error_rank =
      if e = 0 then 0 else if e = enxio then 1 else if e = ecksum then 2
      else if e = eio then 3 else 4 := by
  simp only [zio_error_rank, errorRankIdx]
  split_ifs <;> rfl

/-- Ranks below the table length identify the error uniquely. -/
theorem errorRankIdx_inj {a b : Nat}
    (h : errorRankIdx a zio_error_rank = errorRankIdx b zio_error_rank)
    (ha : errorRankIdx a zio_error_rank < 4) : a = b := by
  rw [errorRankIdx_eq] at h ha
  rw [errorRankIdx_eq] at h
  simp only [eio, enxio, ecksum] at *
  split_ifs at h ha <;> omega

/-- Members of the rank table have rank below the table length. -/
theorem errorRankIdx_lt_of_mem {a : Nat} (h : a ∈ zio_error_rank) :
    errorRankIdx a zio_error_rank < 4 := by
  rw [errorRankIdx_eq]
  simp only [zio_error_rank, List.mem_cons, List.not_mem_nil, or_false] at h
  rcases h with h | h | h | h <;> subst h <;> simp [eio, enxio, ecksum]

/-- C1 (counterexample).  The error-rank merge is *not* commutative for two
distinct error codes that are both outside the ranked set
`{0, ENXIO, ECKSUM, EIO}`: for `a = 1` (`EPERM`) and `b = 2` (`ENOENT`),
both of rank 4, `zio_worst_error` returns its second argument either way. -/
theorem zio_worst_error_comm_counterexample :
    zio_worst_error 1 2 ≠ zio_worst_error 2 1 := by decide

/-- C1 (amended).  `zio_worst_error` is idempotent for every error code, and
it is commutative whenever the two codes are equal or at least one of them is
in the ranked set `{0, ENXIO, ECKSUM, EIO}` — but not in general for two
distinct codes outside the ranked set. -/
theorem zio_worst_error_idem_and_comm :
    (∀ a : Nat, zio_worst_error a a = a) ∧
    (∀ a b : Nat, a = b ∨ a ∈ zio_error_rank ∨ b ∈ zio_error_rank →
      zio_worst_error a b = zio_worst_error b a) := by
  constructor
  · intro a
    simp [zio_worst_error]
  · intro a b h
    by_cases hab : a = b
    · subst hab; rfl
    · unfold zio_worst_error
      rcases lt_trichotomy (errorRankIdx a zio_error_rank)
        (errorRankIdx b zio_error_rank) with hlt | heq | hgt
      · rw [if_neg (by omega), if_pos hlt]
      · exfalso
        rcases h with h | h | h
        · exact hab h
        · exact hab (errorRankIdx_inj heq (errorRankIdx_lt_of_mem h))
        · exact hab (errorRankIdx_inj heq (heq ▸ errorRankIdx_lt_of_mem h))
      · rw [if_pos hgt, if_neg (by omega)]

/-- Witness for C1's amended theorem at concrete inputs. -/
theorem zio_worst_error_idem_and_comm_witness :
    zio_worst_error 7 7 = 7 ∧ zio_worst_error 6 7 = zio_worst_error 7 6 :=
  ⟨zio_worst_error_idem_and_comm.1 7,
   zio_worst_error_idem_and_comm.2 6 7 (Or.inr (Or.inl (by decide)))⟩

/-- Replacing one list element changes `countP` by the difference of the
predicate on the old and new elements. -/
theorem countP_set_eq (p : ZioChild → Bool) (l : List ZioChild) (i : Nat)
    (a b : ZioChild) (h : l[i]? = some a) :
    ((l.set i b).countP p : Int) =
      (l.countP p : Int) + (if p b then 1 else 0) - (if p a then 1 else 0) := by
  induction l generalizing i with
  | nil => simp at h
  | cons x xs ih =>
    cases i with
    | zero =>
      simp only [List.getElem?_cons_zero, Option.some.injEq] at h
      subst h
      simp only [List.set_cons_zero, List.countP_cons]
      split_ifs <;> push_cast <;> ring
    | succ j =>
      simp only [List.getElem?_cons_succ] at h
      have := ih j h
      simp only [List.set_cons_succ, List.countP_cons]
      split_ifs at this ⊢ <;> push_cast at this ⊢ <;> omega

/-- The counter invariant is preserved by every DAG transition. -/
theorem counterInv_step {s s' : ParentState} {l : ZioStepLabel}
    (hs : CounterInv s) (hstep : ZioStep s l s') : CounterInv s' := by
  cases hstep with
  | add c =>
    intro ct w
    have base := hs ct w
    simp only [zio_add_child, addChildCounters, pendingCount, List.countP_cons] at *
    by_cases hP : ct = c.io_child_type ∧ c.io_state w = false
    · rw [if_pos hP]
      have h1 : (decide (c.io_child_type = ct ∧ c.io_state w = false)) = true := by
        simp only [decide_eq_true_eq]
        exact ⟨hP.1.symm, hP.2⟩
      rw [h1]
      simp only [if_true]
      push_cast
      omega
    · rw [if_neg hP]
      have h1 : (decide (c.io_child_type = ct ∧ c.io_state w = false)) = false := by
        simp only [decide_eq_false_iff_not]
        intro hc
        exact hP ⟨hc.1.symm, hc.2⟩
      rw [h1]
      simp only [Bool.false_eq_true, if_false, Nat.add_zero]
      omega
  | notify i w c hget hnot =>
    intro ct w'
    have base := hs ct w'
    have hcnt := countP_set_eq
      (fun x => x.io_child_type = ct ∧ x.io_state w' = false)
      s.children i c (setChildState c w) hget
    simp only [notifyCounters, pendingCount] at *
    by_cases hmatch : ct = c.io_child_type ∧ w' = w
    · obtain ⟨hct, hw⟩ := hmatch
      rw [if_pos (And.intro hct hw)]
      have hold : (decide (c.io_child_type = ct ∧ c.io_state w' = false)) = true := by
        simp only [decide_eq_true_eq]
        exact ⟨hct.symm, by rw [hw]; exact hnot⟩
      have hnew : (decide ((setChildState c w).io_child_type = ct ∧
          (setChildState c w).io_state w' = false)) = false := by
        simp only [decide_eq_false_iff_not]
        intro hcontra
        have hset : (setChildState c w).io_state w' = true := by
          simp [setChildState, hw]
        rw [hset] at hcontra
        exact absurd hcontra.2 (by simp)
      simp only [hold, hnew] at hcnt
      simp only [if_true, Bool.false_eq_true, if_false] at hcnt
      omega
    · rw [if_neg hmatch]
      by_cases hw : w' = w
      · have hct : ¬ c.io_child_type = ct := fun h => hmatch ⟨h.symm, hw⟩
        have hold : (decide (c.io_child_type = ct ∧ c.io_state w' = false)) = false := by
          simp only [decide_eq_false_iff_not]
          exact fun hcontra => hct hcontra.1
        have hnew : (decide ((setChildState c w).io_child_type = ct ∧
            (setChildState c w).io_state w' = false)) = false := by
          simp only [decide_eq_false_iff_not]
          exact fun hcontra => hct hcontra.1
        simp only [hold, hnew] at hcnt
        simp only [Bool.false_eq_true, if_false] at hcnt
        omega
      · have hstate : (setChildState c w).io_state w' = c.io_state w' := by
          simp [setChildState, hw]
        cases h1 : decide ((setChildState c w).io_child_type = ct ∧
            (setChildState c w).io_state w' = false) with
        | true =>
          cases h2 : decide (c.io_child_type = ct ∧ c.io_state w' = false) with
          | true =>
            simp only [h1, h2, if_true] at hcnt
            omega
          | false =>
            rw [decide_eq_true_eq] at h1
            rw [decide_eq_false_iff_not] at h2
            exact absurd ⟨h1.1, hstate ▸ h1.2⟩ h2
        | false =>
          cases h2 : decide (c.io_child_type = ct ∧ c.io_state w' = false) with
          | true =>
            rw [decide_eq_true_eq] at h2
            rw [decide_eq_false_iff_not] at h1
            refine absurd ⟨h2.1, ?_⟩ h1
            rw [hstate]
            exact h2.2
          | false =>
            simp only [h1, h2, Bool.false_eq_true, if_false] at hcnt
            omega

/-- The counter invariant holds in every state reachable from a state that
satisfies it. -/
theorem counterInv_reachable {s s' : ParentState}
    (hs : CounterInv s) (hreach : Relation.ReflTransGen ZioStepAny s s') :
    CounterInv s' := by
  induction hreach with
  | refl => exact hs
  | tail _ hstep ih =>
    obtain ⟨l, hstep⟩ := hstep
    exact counterInv_step ih hstep

/-- C2 (counterexample).  `zio_add_child_impl` bumps a pending counter only
by `!cio->io_state[w]`: linking a child that has already recorded the READY
milestone leaves the parent's READY counter unchanged, not "exactly 1
greater" as the claim states for every parent/child pair. -/
theorem zio_add_child_counterexample :
    (zio_add_child ⟨[], fun _ _ => 0⟩ ⟨.logical, fun _ => true⟩).io_children
        .logical .ready ≠
      (⟨[], fun _ _ => 0⟩ : ParentState).io_children .logical .ready + 1 := by
  decide

/-- C2 (amended).  For a child that has not yet reached a milestone,
`zio_add_child` makes the parent's pending counter for that (child kind,
milestone) exactly 1 greater; when the child reaches the milestone the
`zio_notify_parent` decrement makes it exactly 1 less; and in every state
reachable under the DAG protocol the counter is zero iff every linked child
of that kind has recorded the milestone. -/
theorem zio_add_child_counter_correct :
    (∀ (s : ParentState) (c : ZioChild) (w : ZioWaitType), c.io_state w = false →
      (zio_add_child s c).io_children c.io_child_type w =
        s.io_children c.io_child_type w + 1) ∧
    (∀ (s : ParentState) (ct : ZioChildType) (w : ZioWaitType),
      notifyCounters s.io_children ct w ct w = s.io_children ct w - 1) ∧
    (∀ (s₀ s : ParentState), CounterInv s₀ →
      Relation.ReflTransGen ZioStepAny s₀ s →
      ∀ ct w, (s.io_children ct w = 0 ↔
        ∀ c ∈ s.children, c.io_child_type = ct → c.io_state w = true)) := by
  refine ⟨?_, ?_, ?_⟩
  · intro s c w h
    simp only [zio_add_child, addChildCounters]
    split_ifs with hcond
    · rfl
    · simp [h] at hcond
  · intro s ct w
    simp only [notifyCounters]
    split_ifs with hcond
    · rfl
    · simp at hcond
  · intro s₀ s hinv hreach ct w
    have h := counterInv_reachable hinv hreach ct w
    rw [h]
    simp only [pendingCount]
    constructor
    · intro h0 c hc hct
      have hz : s.children.countP
          (fun c => c.io_child_type = ct ∧ c.io_state w = false) = 0 := by
        exact_mod_cast h0
      rw [List.countP_eq_zero] at hz
      have hnc := hz c hc
      simp only [decide_eq_true_eq, not_and] at hnc
      have hnf := hnc hct
      cases hb : c.io_state w with
      | false => exact absurd hb hnf
      | true => rfl
    · intro hall
      have hz : s.children.countP
          (fun c => c.io_child_type = ct ∧ c.io_state w = false) = 0 := by
        rw [List.countP_eq_zero]
        intro c hc
        simp only [decide_eq_true_eq, not_and]
        intro hct
        rw [hall c hc hct]
        simp
      exact_mod_cast hz

/-- Witness for C2's amended theorem at concrete states. -/
theorem zio_add_child_counter_correct_witness :
    (zio_add_child ⟨[], fun _ _ => 0⟩ ⟨.logical, fun _ => false⟩).io_children
        .logical .ready =
      (⟨[], fun _ _ => 0⟩ : ParentState).io_children .logical .ready + 1 ∧
    notifyCounters (fun _ _ => (1 : Int)) .gang .done .gang .done = 1 - 1 ∧
    ((⟨[], fun _ _ => 0⟩ : ParentState).io_children .logical .ready = 0 ↔
      ∀ c ∈ (⟨[], fun _ _ => 0⟩ : ParentState).children,
        c.io_child_type = .logical → c.io_state .ready = true) :=
  ⟨zio_add_child_counter_correct.1 ⟨[], fun _ _ => 0⟩ ⟨.logical, fun _ => false⟩
      .ready rfl,
   zio_add_child_counter_correct.2.1 ⟨[], fun _ _ => 1⟩ .gang .done,
   zio_add_child_counter_correct.2.2 ⟨[], fun _ _ => 0⟩ ⟨[], fun _ _ => 0⟩
      (fun _ _ => rfl) Relation.ReflTransGen.refl .logical .ready⟩

/-- C10 (confirmed).  `zio_add_child_impl` increments a pending counter only
for milestones the child has not yet recorded (`countp[w] +=
!cio->io_state[w]`): a parent attached after the child recorded a milestone
sees no increment for it; a child whose milestone bit is already set can
never fire the corresponding notification again; and in every reachable
state all pending counters are nonnegative. -/
theorem zio_pending_counters_nonnegative :
    (∀ (s : ParentState) (c : ZioChild) (ct : ZioChildType) (w : ZioWaitType),
      c.io_state w = true →
      (zio_add_child s c).io_children ct w = s.io_children ct w) ∧
    (∀ (s s' : ParentState) (i : Nat) (w : ZioWaitType) (c : ZioChild),
      s.children[i]? = some c → c.io_state w = true →
      ¬ ZioStep s (.notify i w) s') ∧
    (∀ (s₀ s : ParentState), CounterInv s₀ →
      Relation.ReflTransGen ZioStepAny s₀ s →
      ∀ ct w, 0 ≤ s.io_children ct w) := by
  refine ⟨?_, ?_, ?_⟩
  · intro s c ct w h
    simp only [zio_add_child, addChildCounters]
    rw [if_neg]
    rintro ⟨-, hf⟩
    rw [h] at hf
    exact absurd hf (by simp)
  · intro s s' i w c hget htrue hstep
    cases hstep with
    | notify i w c' hget' hnot' =>
      rw [hget] at hget'
      injection hget' with hc
      rw [← hc] at hnot'
      rw [htrue] at hnot'
      exact absurd hnot' (by simp)
  · intro s₀ s hinv hreach ct w
    rw [counterInv_reachable hinv hreach ct w]
    exact Int.natCast_nonneg _

/-- Witness for C10's theorem at concrete states. -/
theorem zio_pending_counters_nonnegative_witness :
    (zio_add_child ⟨[], fun _ _ => 0⟩ ⟨.logical, fun _ => true⟩).io_children
        .logical .ready =
      (⟨[], fun _ _ => 0⟩ : ParentState).io_children .logical .ready ∧
    ¬ ZioStep ⟨[⟨.logical, fun _ => true⟩], fun _ _ => 0⟩ (.notify 0 .ready)
        ⟨[⟨.logical, fun _ => true⟩], fun _ _ => 0⟩ ∧
    0 ≤ (⟨[], fun _ _ => 0⟩ : ParentState).io_children .ddt .done :=
  ⟨zio_pending_counters_nonnegative.1 ⟨[], fun _ _ => 0⟩ ⟨.logical, fun _ => true⟩
      .logical .ready rfl,
   zio_pending_counters_nonnegative.2.1 ⟨[⟨.logical, fun _ => true⟩], fun _ _ => 0⟩
      ⟨[⟨.logical, fun _ => true⟩], fun _ _ => 0⟩ 0 .ready
      ⟨.logical, fun _ => true⟩ rfl rfl,
   zio_pending_counters_nonnegative.2.2 ⟨[], fun _ _ => 0⟩ ⟨[], fun _ _ => 0⟩
      (fun _ _ => rfl) Relation.ReflTransGen.refl .ddt .done⟩

/-- The bounded search finds a set bit when one exists within the fuel. -/
theorem findNextStageAux_spec (pipeline : Nat) :
    ∀ (fuel stage : Nat), pipeline.testBit (stage + fuel) = true → 0 < fuel →
    ∃ s, findNextStageAux pipeline stage fuel = some s ∧ stage < s ∧
      s ≤ stage + fuel ∧ pipeline.testBit s = true := by
  intro fuel
  induction fuel with
  | zero => omega
  | succ n ih =>
    intro stage hbit _
    by_cases h1 : pipeline.testBit (stage + 1) = true
    · exact ⟨stage + 1, by simp [findNextStageAux, h1], by omega, by omega, h1⟩
    · cases n with
      | zero =>
        exact absurd (by simpa using hbit) h1
      | succ m =>
        have hbit' : pipeline.testBit ((stage + 1) + (m + 1)) = true := by
          rw [show (stage + 1) + (m + 1) = stage + (m + 1 + 1) by omega]
          exact hbit
        obtain ⟨s, hfind, hlt, hle, hs⟩ := ih (stage + 1) hbit' (by omega)
        refine ⟨s, ?_, by omega, by omega, hs⟩
        simp only [findNextStageAux]
        rw [if_neg (by simp [h1])]
        exact hfind

/-- `findNextStage` strictly increases the stage and never passes DONE when
the DONE bit is enabled. -/
theorem findNextStage_spec (pipeline stage : Nat)
    (hdone : pipeline.testBit ZIO_STAGE_DONE_BIT = true)
    (hlt : stage < ZIO_STAGE_DONE_BIT) :
    ∃ s, findNextStage pipeline stage = some s ∧ stage < s ∧
      s ≤ ZIO_STAGE_DONE_BIT ∧ pipeline.testBit s = true := by
  have hb : pipeline.testBit (stage + (ZIO_STAGE_DONE_BIT - stage)) = true := by
    rw [show stage + (ZIO_STAGE_DONE_BIT - stage) = ZIO_STAGE_DONE_BIT by omega]
    exact hdone
  obtain ⟨s, hfind, h1, h2, h3⟩ :=
    findNextStageAux_spec pipeline (ZIO_STAGE_DONE_BIT - stage) stage hb (by omega)
  exact ⟨s, hfind, h1, by omega, h3⟩

/-- With the DONE bit enabled, the loop never exhausts `27 - stage` fuel:
it either stalls at a strictly later stage or finishes at DONE. -/
theorem zioExecute_cases (h : Nat → Bool) :
    ∀ (fuel : Nat) (z : ZState),
    z.io_pipeline.testBit ZIO_STAGE_DONE_BIT = true →
    z.io_stage ≤ ZIO_STAGE_DONE_BIT → z.io_stage + fuel ≥ 27 →
    (∃ z', zioExecute h fuel z = .stalled z' ∧ z.io_stage < z'.io_stage ∧
      z'.io_pipeline = z.io_pipeline) ∨
    (∃ z', zioExecute h fuel z = .finished z' ∧ z'.io_stage = ZIO_STAGE_DONE_BIT ∧
      z'.io_pipeline = z.io_pipeline) := by
  intro fuel
  induction fuel with
  | zero =>
    intro z _ hle hge
    exact absurd hge (by simp [ZIO_STAGE_DONE_BIT] at hle ⊢; omega)
  | succ n ih =>
    intro z hdone hle hge
    by_cases hlt : z.io_stage < ZIO_STAGE_DONE_BIT
    · obtain ⟨s, hfind, h1, h2, _⟩ := findNextStage_spec z.io_pipeline z.io_stage hdone hlt
      by_cases hh : h s = true
      · rcases ih ⟨s, z.io_pipeline⟩ hdone h2 (by simp; omega) with
          ⟨z', hrun, hlt', hp⟩ | ⟨z', hrun, hstage, hp⟩
        · refine Or.inl ⟨z', ?_, by simp at hlt'; omega, hp⟩
          simp only [zioExecute, if_pos hlt, hfind, hh, if_true]
          exact hrun
        · refine Or.inr ⟨z', ?_, hstage, hp⟩
          simp only [zioExecute, if_pos hlt, hfind, hh, if_true]
          exact hrun
      · refine Or.inl ⟨⟨s, z.io_pipeline⟩, ?_, h1, rfl⟩
        simp only [zioExecute, if_pos hlt, hfind]
        rw [if_neg hh]
    · refine Or.inr ⟨z, ?_, by omega, rfl⟩
      simp only [zioExecute]
      rw [if_neg hlt]

/-- When no handler stalls, the loop finishes exactly at DONE. -/
theorem zioExecute_finishes (h : Nat → Bool) (hall : ∀ s, h s = true) :
    ∀ (fuel : Nat) (z : ZState),
    z.io_pipeline.testBit ZIO_STAGE_DONE_BIT = true →
    z.io_stage ≤ ZIO_STAGE_DONE_BIT → z.io_stage + fuel ≥ 27 →
    zioExecute h fuel z = .finished ⟨ZIO_STAGE_DONE_BIT, z.io_pipeline⟩ := by
  intro fuel
  induction fuel with
  | zero =>
    intro z _ hle hge
    exact absurd hge (by simp [ZIO_STAGE_DONE_BIT] at hle ⊢; omega)
  | succ n ih =>
    intro z hdone hle hge
    by_cases hlt : z.io_stage < ZIO_STAGE_DONE_BIT
    · obtain ⟨s, hfind, h1, h2, _⟩ := findNextStage_spec z.io_pipeline z.io_stage hdone hlt
      simp only [zioExecute, if_pos hlt, hfind, hall s, if_true]
      exact ih ⟨s, z.io_pipeline⟩ hdone h2 (by simp; omega)
    · have hstage : z.io_stage = ZIO_STAGE_DONE_BIT := by omega
      simp only [zioExecute]
      rw [if_neg hlt]
      cases z
      simp only at hstage
      rw [hstage]

/-- C3 (confirmed).  With the DONE bit enabled in the pipeline mask:
(1) the next-set-bit search always yields a strictly greater stage bounded
by DONE; (2) the dispatch loop run with fuel 27 (one per possible stage)
never exhausts it — it either stops because a handler returned NULL, at a
strictly advanced stage, or exits with the node at the DONE stage; (3) if no
handler ever returns NULL the node always finishes exactly at DONE; and
(4) a node stalled at stage `s` and rewound by `zio_wait_for_children` is
re-entered at that same stage `s`, not at an earlier one, so a re-entry
cannot re-run completed stages forever. -/
theorem zio_execute_reaches_done :
    (∀ pipeline stage : Nat, pipeline.testBit ZIO_STAGE_DONE_BIT = true →
      stage < ZIO_STAGE_DONE_BIT →
      ∃ s, findNextStage pipeline stage = some s ∧ stage < s ∧
        s ≤ ZIO_STAGE_DONE_BIT ∧ pipeline.testBit s = true) ∧
    (∀ (h : Nat → Bool) (z : ZState),
      z.io_pipeline.testBit ZIO_STAGE_DONE_BIT = true →
      z.io_stage ≤ ZIO_STAGE_DONE_BIT →
      (∃ z', zioExecute h 27 z = .stalled z' ∧ z.io_stage < z'.io_stage ∧
        z'.io_pipeline = z.io_pipeline) ∨
      (∃ z', zioExecute h 27 z = .finished z' ∧ z'.io_stage = ZIO_STAGE_DONE_BIT ∧
        z'.io_pipeline = z.io_pipeline)) ∧
    (∀ (h : Nat → Bool) (z : ZState), (∀ s, h s = true) →
      z.io_pipeline.testBit ZIO_STAGE_DONE_BIT = true →
      z.io_stage ≤ ZIO_STAGE_DONE_BIT →
      zioExecute h 27 z = .finished ⟨ZIO_STAGE_DONE_BIT, z.io_pipeline⟩) ∧
    (∀ (pipeline s : Nat), 1 ≤ s → s ≤ ZIO_STAGE_DONE_BIT →
      pipeline.testBit s = true →
      findNextStage pipeline (zio_wait_for_children_rewind s) = some s) := by
  refine ⟨findNextStage_spec, ?_, ?_, ?_⟩
  · intro h z hdone hle
    exact zioExecute_cases h 27 z hdone hle (by omega)
  · intro h z hall hdone hle
    exact zioExecute_finishes h hall 27 z hdone hle (by omega)
  · intro pipeline s h1 h26 hbit
    have hs : s - 1 + 1 = s := by omega
    have hfuel : ZIO_STAGE_DONE_BIT - (s - 1) = (ZIO_STAGE_DONE_BIT - s) + 1 := by
      simp only [ZIO_STAGE_DONE_BIT] at h26 ⊢
      omega
    simp only [zio_wait_for_children_rewind, findNextStage]
    rw [hfuel]
    simp only [findNextStageAux, hs, hbit, if_true]

/-- Witness for C3's theorem on a concrete pipeline mask
(bits 0, 20 and 26 set, i.e. OPEN, READY and DONE). -/
theorem zio_execute_reaches_done_witness :
    (∃ s, findNextStage 68157441 0 = some s ∧ 0 < s ∧
      s ≤ ZIO_STAGE_DONE_BIT ∧ Nat.testBit 68157441 s = true) ∧
    ((∃ z', zioExecute (fun _ => true) 27 ⟨0, 68157441⟩ = .stalled z' ∧
        0 < z'.io_stage ∧ z'.io_pipeline = 68157441) ∨
     (∃ z', zioExecute (fun _ => true) 27 ⟨0, 68157441⟩ = .finished z' ∧
        z'.io_stage = ZIO_STAGE_DONE_BIT ∧ z'.io_pipeline = 68157441)) ∧
    zioExecute (fun _ => true) 27 ⟨0, 68157441⟩ =
      .finished ⟨ZIO_STAGE_DONE_BIT, 68157441⟩ ∧
    findNextStage 68157441 (zio_wait_for_children_rewind 20) = some 20 :=
  ⟨zio_execute_reaches_done.1 68157441 0 (by decide) (by decide),
   zio_execute_reaches_done.2.1 (fun _ => true) ⟨0, 68157441⟩ (by decide) (by decide),
   zio_execute_reaches_done.2.2.1 (fun _ => true) ⟨0, 68157441⟩ (fun _ => rfl)
     (by decide) (by decide),
   zio_execute_reaches_done.2.2.2 68157441 20 (by decide) (by decide) (by decide)⟩

/-- A node with `isLeaf` set is `leaf`. -/
theorem GangNode.eq_leaf_of_isLeaf : ∀ {gn : GangNode}, gn.isLeaf = true → gn = .leaf
  | .leaf, _ => rfl
  | .node _, h => by simp [GangNode.isLeaf] at h

mutual
/-- The issue walk fires on a pointer as often as it occurs among the
non-hole constituents. -/
theorem count_gang_issue : ∀ (gn : GangNode) (bp p : Blkptr),
    gangWf gn = true → bp.isHole = false →
    (zio_gang_tree_issue gn bp).count p =
      if p.isHole then 0 else (gangConstituents gn bp).count p
  | .leaf, bp, p, _, hbp => by
    simp only [zio_gang_tree_issue, gangConstituents]
    by_cases hp : p.isHole
    · rw [if_pos hp]
      have hne : (bp == p) = false := by
        rw [beq_eq_false_iff_ne]
        intro h
        rw [h, hp] at hbp
        exact absurd hbp (by simp)
      simp [List.count_cons, hne]
    · rw [if_neg hp]
  | .node slots, bp, p, hwf, hbp => by
    have hs := count_gang_issue_slots slots p (by simpa [gangWf] using hwf)
    simp only [zio_gang_tree_issue, gangConstituents, List.count_cons]
    by_cases hp : p.isHole
    · rw [if_pos hp] at hs
      rw [if_pos hp]
      have hne : (bp == p) = false := by
        rw [beq_eq_false_iff_ne]
        intro h
        rw [h, hp] at hbp
        exact absurd hbp (by simp)
      simp [hs, hne]
    · rw [if_neg hp] at hs
      rw [if_neg hp]
      rw [hs]

/-- Slot version of `count_gang_issue`. -/
theorem count_gang_issue_slots : ∀ (slots : GangSlots) (p : Blkptr),
    gangWfSlots slots = true →
    (zio_gang_tree_issue_slots slots).count p =
      if p.isHole then 0 else (gangConstituentsSlots slots).count p
  | .nil, p, _ => by
    simp [zio_gang_tree_issue_slots, gangConstituentsSlots]
  | .cons gbp child rest, p, hwf => by
    have hwf' := hwf
    simp only [gangWfSlots, Bool.and_eq_true, Bool.or_eq_true,
      Bool.not_eq_true'] at hwf'
    obtain ⟨⟨h1, h2⟩, h3⟩ := hwf'
    have hrest := count_gang_issue_slots rest p h3
    simp only [zio_gang_tree_issue_slots, gangConstituentsSlots, List.count_append]
    by_cases hg : gbp.isHole
    · have hchild : child = .leaf := by
        rcases h1 with h | h
        · rw [hg] at h
          exact absurd h (by simp)
        · exact GangNode.eq_leaf_of_isLeaf h
      subst hchild
      rw [if_pos hg]
      simp only [gangConstituents]
      by_cases hp : p.isHole
      · rw [if_pos hp] at hrest ⊢
        simp [hrest]
      · rw [if_neg hp] at hrest ⊢
        have hne : (gbp == p) = false := by
          rw [beq_eq_false_iff_ne]
          intro h
          rw [h] at hg
          exact hp hg
        simp [List.count_cons, hne, hrest]
    · rw [if_neg hg]
      have hchild := count_gang_issue child gbp p h2 (by simpa using hg)
      rw [hchild, hrest]
      by_cases hp : p.isHole
      · simp [hp]
      · simp [hp]
end

/-- C4 (confirmed).  Issuing an operation (free) over an assembled gang tree
fires the callback on every non-hole constituent block pointer exactly once
— headers included, holes skipped, across all nesting levels. -/
theorem zio_gang_free_visits_each_once :
    ∀ (gn : GangNode) (bp : Blkptr), gangWf gn = true → bp.isHole = false →
    (gangConstituents gn bp).Nodup →
    (∀ p, p.isHole = false → p ∈ gangConstituents gn bp →
      (zio_gang_tree_issue gn bp).count p = 1) ∧
    (∀ p, p ∉ gangConstituents gn bp ∨ p.isHole = true →
      p ∉ zio_gang_tree_issue gn bp) := by
  intro gn bp hwf hbp hnd
  constructor
  · intro p hp hmem
    rw [count_gang_issue gn bp p hwf hbp, if_neg (by simp [hp])]
    exact List.count_eq_one_of_mem hnd hmem
  · intro p hp
    rw [← List.count_eq_zero]
    rw [count_gang_issue gn bp p hwf hbp]
    rcases hp with hp | hp
    · by_cases hph : p.isHole
      · rw [if_pos hph]
      · rw [if_neg hph]
        rw [List.count_eq_zero]
        exact hp
    · rw [if_pos hp]

/-- Witness for C4's theorem on the synthetic 5-member, 2-level tree: the
deepest member is freed exactly once and the hole slot is never visited. -/
theorem zio_gang_free_visits_each_once_witness :
    (zio_gang_tree_issue gangDemoTree ⟨1, false⟩).count ⟨7, false⟩ = 1 ∧
    (⟨8, true⟩ : Blkptr) ∉ zio_gang_tree_issue gangDemoTree ⟨1, false⟩ :=
  ⟨(zio_gang_free_visits_each_once gangDemoTree ⟨1, false⟩ (by decide) (by decide)
      (by decide)).1 ⟨7, false⟩ (by decide) (by decide),
   (zio_gang_free_visits_each_once gangDemoTree ⟨1, false⟩ (by decide) (by decide)
      (by decide)).2 ⟨8, true⟩ (Or.inr (by decide))⟩

mutual
/-- The unallocation walk frees a pointer as often as it occurs among the
non-hole constituents. -/
theorem count_dva_unallocate : ∀ (gn : GangNode) (bp p : Blkptr),
    (zio_dva_unallocate gn bp).count p =
      if p.isHole then 0 else (gangConstituents gn bp).count p
  | .leaf, bp, p => by
    simp only [zio_dva_unallocate, gangConstituents]
    by_cases hb : bp.isHole
    · rw [if_pos hb]
      by_cases hp : p.isHole
      · simp [hp]
      · rw [if_neg hp]
        have hne : (bp == p) = false := by
          rw [beq_eq_false_iff_ne]
          intro h
          rw [h] at hb
          exact hp hb
        simp [List.count_cons, hne]
    · rw [if_neg hb]
      by_cases hp : p.isHole
      · rw [if_pos hp]
        have hne : (bp == p) = false := by
          rw [beq_eq_false_iff_ne]
          intro h
          rw [h, hp] at hb
          exact hb (by simp)
        simp [List.count_cons, hne]
      · rw [if_neg hp]
  | .node slots, bp, p => by
    have hs := count_dva_unallocate_slots slots p
    simp only [zio_dva_unallocate, gangConstituents, List.count_append,
      List.count_cons]
    by_cases hp : p.isHole
    · rw [if_pos hp] at hs
      rw [if_pos hp]
      have hzero : (List.count p (if bp.isHole then ([] : List Blkptr) else [bp])) = 0 := by
        by_cases hb : bp.isHole
        · simp [hb]
        · have hne : (bp == p) = false := by
            rw [beq_eq_false_iff_ne]
            intro h
            rw [h, hp] at hb
            exact hb (by simp)
          simp [hb, List.count_cons, hne]
      rw [hzero, hs]
    · rw [if_neg hp] at hs
      rw [if_neg hp]
      rw [hs]
      by_cases hb : bp.isHole
      · have hne : (bp == p) = false := by
          rw [beq_eq_false_iff_ne]
          intro h
          rw [h] at hb
          exact hp hb
        simp [hb, List.count_cons, hne]
      · simp [hb, List.count_cons]
        omega

/-- Slot version of `count_dva_unallocate`. -/
theorem count_dva_unallocate_slots : ∀ (slots : GangSlots) (p : Blkptr),
    (zio_dva_unallocate_slots slots).count p =
      if p.isHole then 0 else (gangConstituentsSlots slots).count p
  | .nil, p => by
    simp [zio_dva_unallocate_slots, gangConstituentsSlots]
  | .cons gbp child rest, p => by
    have h1 := count_dva_unallocate child gbp p
    have h2 := count_dva_unallocate_slots rest p
    simp only [zio_dva_unallocate_slots, gangConstituentsSlots, List.count_append]
    rw [h1, h2]
    by_cases hp : p.isHole
    · simp [hp]
    · simp [hp]
end

/-- C6 (confirmed).  A gang-leader write that completes with an error or is
marked for reexecution/suspension, is allocating and is neither a rewrite
nor a nop-write, individually returns every non-hole block pointer of its
assembled gang tree (header and children, recursively) to free space exactly
once, frees nothing that is a hole, and only then discards the tree. -/
theorem zio_failed_gang_write_unallocates_all :
    ∀ (z : GangDoneZio),
    (z.io_error ≠ 0 ∨ z.postReexecute = true ∨ z.postSuspend = true) →
    z.isAllocating = true → z.gangLeaderSelf = true →
    z.flagRewrite = false → z.flagNopwrite = false →
    (gangConstituents z.io_gang_tree z.io_bp).Nodup →
    (∀ p, p.isHole = false → p ∈ gangConstituents z.io_gang_tree z.io_bp →
      (zio_done_gang_cleanup z).1.count p = 1) ∧
    (∀ p, p.isHole = true → p ∉ (zio_done_gang_cleanup z).1) ∧
    (zio_done_gang_cleanup z).2 = none := by
  intro z herr halloc hleader hrw hnop hnd
  have hcond : (z.io_error ≠ 0 ∨ z.postReexecute = true ∨ z.postSuspend = true) ∧
      z.isAllocating = true ∧ z.gangLeaderSelf = true ∧
      z.flagRewrite = false ∧ z.flagNopwrite = false :=
    ⟨herr, halloc, hleader, hrw, hnop⟩
  refine ⟨?_, ?_, ?_⟩
  · intro p hp hmem
    simp only [zio_done_gang_cleanup, if_pos hcond]
    rw [count_dva_unallocate z.io_gang_tree z.io_bp p, if_neg (by simp [hp])]
    exact List.count_eq_one_of_mem hnd hmem
  · intro p hp
    simp only [zio_done_gang_cleanup, if_pos hcond]
    rw [← List.count_eq_zero]
    rw [count_dva_unallocate z.io_gang_tree z.io_bp p, if_pos hp]
  · simp only [zio_done_gang_cleanup]
    split_ifs
    all_goals rfl

/-- Witness for C6's theorem: a failed gang-leader write over the synthetic
2-level tree frees the deepest member exactly once, never frees the hole,
and discards the tree. -/
theorem zio_failed_gang_write_unallocates_all_witness :
    (zio_done_gang_cleanup ⟨eio, false, false, true, true, false, false,
        gangDemoTree, ⟨1, false⟩⟩).1.count ⟨7, false⟩ = 1 ∧
    (⟨8, true⟩ : Blkptr) ∉ (zio_done_gang_cleanup ⟨eio, false, false, true, true,
        false, false, gangDemoTree, ⟨1, false⟩⟩).1 ∧
    (zio_done_gang_cleanup ⟨eio, false, false, true, true, false, false,
        gangDemoTree, ⟨1, false⟩⟩).2 = none := by
  have h := zio_failed_gang_write_unallocates_all
    ⟨eio, false, false, true, true, false, false, gangDemoTree, ⟨1, false⟩⟩
    (Or.inl (by decide)) rfl rfl rfl rfl (by decide)
  exact ⟨h.1 ⟨7, false⟩ rfl (by decide), h.2.1 ⟨8, true⟩ rfl, h.2.2⟩

/-- C7 (counterexample).  An allocating, non-CANFAIL logical write whose
`io_post` carries `ZIO_POST_DIO_CHKSUM_ERR` and that completes with `EIO` is
marked for suspension by the final non-CANFAIL clause, not for reexecution,
contradicting the claim that every non-ENOSPC error on such a node leads to
whole-subtree reexecution. -/
theorem zio_done_disposition_counterexample :
    (zio_done_error_disposition
        ⟨eio, .write, true, true, false, false, false, true, false,
          ⟨false, false, true⟩⟩).reexecute = false ∧
    (zio_done_error_disposition
        ⟨eio, .write, true, true, false, false, false, true, false,
          ⟨false, false, true⟩⟩).suspend = true := by
  decide

/-- C7 (amended).  For an allocating logical write not flagged CANFAIL, not
already marked for reexecution or suspension, and with no direct-I/O
checksum-verify failure recorded: completing with ENOSPC marks the node for
pool suspension (and not reexecution), while completing with any other
nonzero error marks it for whole-subtree reexecution (and not suspension). -/
theorem zio_done_enospc_suspends_other_reexecutes :
    ∀ (z : DoneErrZio), z.logicalSelf = true → z.io_type = .write →
    z.isAllocating = true → z.canfail = false →
    z.io_post.reexecute = false → z.io_post.suspend = false →
    z.io_post.dioChksumErr = false →
    (z.io_error = enospc →
      (zio_done_error_disposition z).suspend = true ∧
      (zio_done_error_disposition z).reexecute = false) ∧
    (z.io_error ≠ 0 → z.io_error ≠ enospc →
      (zio_done_error_disposition z).reexecute = true ∧
      (zio_done_error_disposition z).suspend = false) := by
  intro z hlog htype halloc hcf hr hs hd
  obtain ⟨e, ty, lg, al, cf, st, dd, ld, fm, ⟨pr, ps, pd⟩⟩ := z
  simp only at hlog htype halloc hcf hr hs hd
  subst hlog htype halloc hcf hr hs hd
  constructor
  · intro herr
    simp only at herr
    subst herr
    simp [zio_done_error_disposition, enospc, eagain]
  · intro herr hne
    simp only at herr hne
    simp only [zio_done_error_disposition]
    split_ifs <;> simp_all [eagain, enospc, enxio]

/-- Witness for C7's amended theorem: a concrete allocating logical write,
once with ENOSPC (suspends) and once with EIO (reexecutes). -/
theorem zio_done_enospc_suspends_other_reexecutes_witness :
    ((zio_done_error_disposition
        ⟨enospc, .write, true, true, false, false, false, true, false,
          ⟨false, false, false⟩⟩).suspend = true ∧
     (zio_done_error_disposition
        ⟨enospc, .write, true, true, false, false, false, true, false,
          ⟨false, false, false⟩⟩).reexecute = false) ∧
    ((zio_done_error_disposition
        ⟨eio, .write, true, true, false, false, false, true, false,
          ⟨false, false, false⟩⟩).reexecute = true ∧
     (zio_done_error_disposition
        ⟨eio, .write, true, true, false, false, false, true, false,
          ⟨false, false, false⟩⟩).suspend = false) :=
  ⟨(zio_done_enospc_suspends_other_reexecutes
      ⟨enospc, .write, true, true, false, false, false, true, false,
        ⟨false, false, false⟩⟩ rfl rfl rfl rfl rfl rfl rfl).1 rfl,
   (zio_done_enospc_suspends_other_reexecutes
      ⟨eio, .write, true, true, false, false, false, true, false,
        ⟨false, false, false⟩⟩ rfl rfl rfl rfl rfl rfl rfl).2
      (by decide) (by decide)⟩

/-- C5 (confirmed).  Two dedup writers of identical content on an entry with
zero existing copies, the second arriving while the first's physical write
is the in-flight lead and requesting no more copies than the lead's parent:
the first issues the only physical write, the second joins as a child of the
lead without issuing, and after the lead completes successfully exactly one
physical write has occurred and the reference count is 2. -/
theorem zio_ddt_two_writers_one_write :
    ∀ (c1 c2 : Nat), 0 < c2 → c2 ≤ c1 →
    (ddtTwoWriterRun c1 c2).2.1 = .issued ∧
    (ddtTwoWriterRun c1 c2).2.2 = .joined ∧
    (ddtTwoWriterRun c1 c2).1.physWrites = 1 ∧
    (ddtTwoWriterRun c1 c2).1.refcnt = 2 ∧
    (ddtTwoWriterRun c1 c2).1.lead = false := by
  intro c1 c2 h2 h12
  have hc1 : ¬ (0 ≥ c1) := by omega
  have hc2 : ¬ (0 ≥ c2) := by omega
  simp only [ddtTwoWriterRun, zio_ddt_write, zio_ddt_child_write_ready,
    zio_ddt_child_write_done]
  norm_num [hc1, hc2, h12, List.countP_cons]

/-- Witness for C5's theorem with both writers requesting one copy. -/
theorem zio_ddt_two_writers_one_write_witness :
    (ddtTwoWriterRun 1 1).2.1 = .issued ∧
    (ddtTwoWriterRun 1 1).2.2 = .joined ∧
    (ddtTwoWriterRun 1 1).1.physWrites = 1 ∧
    (ddtTwoWriterRun 1 1).1.refcnt = 2 ∧
    (ddtTwoWriterRun 1 1).1.lead = false :=
  zio_ddt_two_writers_one_write 1 1 (by decide) (by decide)

/-- C8 (counterexample).  A rewrite whose checksum algorithm, compression,
dedup bit, copy count and content checksum all match the previous pointer is
still *not* nop-written when one of its previous DVAs sits on an indirect
vdev (after device removal) — `zio_nop_write` ignores the request and lets a
new block be allocated on a concrete vdev — and likewise when the block is
encrypted, where it bails out before even comparing checksums.  In both
cases the zio keeps its allocating pipeline (bit 17) and the flag stays
clear. -/
theorem zio_nop_write_counterexample :
    ((zio_nop_write (fun _ => true) true
        ⟨⟨1, 2, false, false, false, 1, 99⟩, ⟨1, 2, false, false, false, 1, 99⟩,
          1, 2 ^ 17, false⟩).flagNopwrite = false ∧
     Nat.testBit (zio_nop_write (fun _ => true) true
        ⟨⟨1, 2, false, false, false, 1, 99⟩, ⟨1, 2, false, false, false, 1, 99⟩,
          1, 2 ^ 17, false⟩).pipeline ZIO_STAGE_DVA_ALLOCATE_BIT = true) ∧
    ((zio_nop_write (fun _ => true) false
        ⟨⟨1, 2, false, true, false, 1, 99⟩, ⟨1, 2, false, true, false, 1, 99⟩,
          1, 2 ^ 17, false⟩).flagNopwrite = false ∧
     Nat.testBit (zio_nop_write (fun _ => true) false
        ⟨⟨1, 2, false, true, false, 1, 99⟩, ⟨1, 2, false, true, false, 1, 99⟩,
          1, 2 ^ 17, false⟩).pipeline ZIO_STAGE_DVA_ALLOCATE_BIT = true) := by
  decide

/-- C8 (amended).  With nop-write enabled: if additionally the previous
pointer exists (not a hole), the checksum algorithm is strong (nop-write
capable), neither pointer is encrypted, no previous DVA sits on an indirect
vdev, and checksum algorithm, compression, dedup bit, copy count and content
checksum all match, the previous block pointer is reused byte-identically
and the pipeline is reset to the interlock subset — no allocation stage, no
device stage.  If checksum algorithm, compression, copy count or content
differs, the zio is returned unchanged and proceeds to allocate.  Nop-write
and dedup remain mutually exclusive on one node (`zio_write_override`). -/
theorem zio_nop_write_reuses_bp :
    (∀ (tbl : Nat → Bool) (z : NopZio),
      z.bp_orig.isHole = false → tbl z.bp.checksumAlg = true →
      z.bp.encrypted = false → z.bp_orig.encrypted = false →
      z.bp.checksumAlg = z.bp_orig.checksumAlg →
      z.bp.compressAlg = z.bp_orig.compressAlg →
      z.bp.dedup = z.bp_orig.dedup →
      z.zp_copies = z.bp_orig.ndvas →
      z.bp.blk_cksum = z.bp_orig.blk_cksum →
      (zio_nop_write tbl false z).bp = z.bp_orig ∧
      (zio_nop_write tbl false z).pipeline = ZIO_INTERLOCK_PIPELINE ∧
      Nat.testBit (zio_nop_write tbl false z).pipeline
        ZIO_STAGE_DVA_ALLOCATE_BIT = false ∧
      Nat.testBit (zio_nop_write tbl false z).pipeline
        ZIO_STAGE_VDEV_IO_START_BIT = false ∧
      (zio_nop_write tbl false z).flagNopwrite = true) ∧
    (∀ (tbl : Nat → Bool) (ind : Bool) (z : NopZio),
      (z.bp.checksumAlg ≠ z.bp_orig.checksumAlg ∨
       z.bp.compressAlg ≠ z.bp_orig.compressAlg ∨
       z.zp_copies ≠ z.bp_orig.ndvas ∨
       z.bp.blk_cksum ≠ z.bp_orig.blk_cksum) →
      zio_nop_write tbl ind z = z) ∧
    (∀ (zp : WriteProp) (copies gang_copies : Nat) (nopwrite brtwrite : Bool),
      ¬((zio_write_override_prop zp copies gang_copies nopwrite
          brtwrite).zp_nopwrite = true ∧
        (zio_write_override_prop zp copies gang_copies nopwrite
          brtwrite).zp_dedup = true)) := by
  refine ⟨?_, ?_, ?_⟩
  · intro tbl z h1 h2 h3 h4 h5 h6 h7 h8 h9
    have hcond : ¬(z.bp_orig.isHole = true ∨ tbl z.bp.checksumAlg = false ∨
        z.bp.encrypted = true ∨ z.bp_orig.encrypted = true ∨
        z.bp.checksumAlg ≠ z.bp_orig.checksumAlg ∨
        z.bp.compressAlg ≠ z.bp_orig.compressAlg ∨
        z.bp.dedup ≠ z.bp_orig.dedup ∨
        z.zp_copies ≠ z.bp_orig.ndvas) := by
      intro hcont
      rcases hcont with h | h | h | h | h | h | h | h
      · rw [h1] at h
        exact absurd h (by simp)
      · rw [h2] at h
        exact absurd h (by simp)
      · rw [h3] at h
        exact absurd h (by simp)
      · rw [h4] at h
        exact absurd h (by simp)
      · exact h h5
      · exact h h6
      · exact h h7
      · exact h h8
    simp only [zio_nop_write, if_neg hcond, if_pos h9]
    rw [if_neg (by simp)]
    exact ⟨rfl, rfl,
      (by decide : Nat.testBit ZIO_INTERLOCK_PIPELINE ZIO_STAGE_DVA_ALLOCATE_BIT
        = false),
      (by decide : Nat.testBit ZIO_INTERLOCK_PIPELINE ZIO_STAGE_VDEV_IO_START_BIT
        = false), rfl⟩
  · intro tbl ind z hdiff
    simp only [zio_nop_write]
    by_cases hc1 : z.bp_orig.isHole = true ∨ tbl z.bp.checksumAlg = false ∨
        z.bp.encrypted = true ∨ z.bp_orig.encrypted = true ∨
        z.bp.checksumAlg ≠ z.bp_orig.checksumAlg ∨
        z.bp.compressAlg ≠ z.bp_orig.compressAlg ∨
        z.bp.dedup ≠ z.bp_orig.dedup ∨
        z.zp_copies ≠ z.bp_orig.ndvas
    · rw [if_pos hc1]
    · rw [if_neg hc1]
      have hck : z.bp.blk_cksum ≠ z.bp_orig.blk_cksum := by
        rcases hdiff with h | h | h | h
        · exact absurd (Or.inr (Or.inr (Or.inr (Or.inr (Or.inl h))))) hc1
        · exact absurd (Or.inr (Or.inr (Or.inr (Or.inr (Or.inr (Or.inl h)))))) hc1
        · exact absurd (Or.inr (Or.inr (Or.inr (Or.inr (Or.inr (Or.inr
            (Or.inr h))))))) hc1
        · exact h
      rw [if_neg hck]
  · intro zp copies gang_copies nopwrite brtwrite
    rintro ⟨hn, hd⟩
    simp only [zio_write_override_prop] at hn hd
    rw [hn] at hd
    simp at hd

/-- Witness for C8's amended theorem at concrete inputs: a matching rewrite
is nop-written; a rewrite with a different content checksum is unchanged;
an override requesting nopwrite has dedup cleared. -/
theorem zio_nop_write_reuses_bp_witness :
    ((zio_nop_write (fun _ => true) false
        ⟨⟨1, 2, false, false, false, 1, 99⟩, ⟨1, 2, false, false, false, 1, 99⟩,
          1, 2 ^ 17, false⟩).bp = ⟨1, 2, false, false, false, 1, 99⟩ ∧
     (zio_nop_write (fun _ => true) false
        ⟨⟨1, 2, false, false, false, 1, 99⟩, ⟨1, 2, false, false, false, 1, 99⟩,
          1, 2 ^ 17, false⟩).pipeline = ZIO_INTERLOCK_PIPELINE ∧
     Nat.testBit (zio_nop_write (fun _ => true) false
        ⟨⟨1, 2, false, false, false, 1, 99⟩, ⟨1, 2, false, false, false, 1, 99⟩,
          1, 2 ^ 17, false⟩).pipeline ZIO_STAGE_DVA_ALLOCATE_BIT = false ∧
     Nat.testBit (zio_nop_write (fun _ => true) false
        ⟨⟨1, 2, false, false, false, 1, 99⟩, ⟨1, 2, false, false, false, 1, 99⟩,
          1, 2 ^ 17, false⟩).pipeline ZIO_STAGE_VDEV_IO_START_BIT = false ∧
     (zio_nop_write (fun _ => true) false
        ⟨⟨1, 2, false, false, false, 1, 99⟩, ⟨1, 2, false, false, false, 1, 99⟩,
          1, 2 ^ 17, false⟩).flagNopwrite = true) ∧
    zio_nop_write (fun _ => true) false
        ⟨⟨1, 2, false, false, false, 1, 99⟩, ⟨1, 2, false, false, false, 1, 98⟩,
          1, 2 ^ 17, false⟩ =
      ⟨⟨1, 2, false, false, false, 1, 99⟩, ⟨1, 2, false, false, false, 1, 98⟩,
        1, 2 ^ 17, false⟩ ∧
    ¬((zio_write_override_prop ⟨true, false, false, 3, 3⟩ 2 2 true
        false).zp_nopwrite = true ∧
      (zio_write_override_prop ⟨true, false, false, 3, 3⟩ 2 2 true
        false).zp_dedup = true) :=
  ⟨zio_nop_write_reuses_bp.1 (fun _ => true)
      ⟨⟨1, 2, false, false, false, 1, 99⟩, ⟨1, 2, false, false, false, 1, 99⟩,
        1, 2 ^ 17, false⟩ rfl rfl rfl rfl rfl rfl rfl rfl rfl,
   zio_nop_write_reuses_bp.2.1 (fun _ => true) false
      ⟨⟨1, 2, false, false, false, 1, 99⟩, ⟨1, 2, false, false, false, 1, 98⟩,
        1, 2 ^ 17, false⟩ (Or.inr (Or.inr (Or.inr (by decide)))),
   zio_nop_write_reuses_bp.2.2 ⟨true, false, false, 3, 3⟩ 2 2 true false⟩

/-- `zio_io_to_allocate` moves at most the queue head to the dispatched
list: the union of queued and dispatched writers is preserved. -/
theorem zio_io_to_allocate_perm (st : ThrottleState) :
    ((zio_io_to_allocate st).2.queued ++ (zio_io_to_allocate st).2.dispatched).Perm
      (st.queued ++ st.dispatched) := by
  obtain ⟨q, infl, lim, disp⟩ := st
  rcases q with _ | ⟨z, rest⟩
  · exact List.Perm.refl _
  · by_cases hr : infl < lim
    · simp only [zio_io_to_allocate, if_pos hr]
      simp [@List.perm_middle _ z rest disp]
    · simp only [zio_io_to_allocate, if_neg hr]
      exact List.Perm.refl _

/-- The dispatch loop preserves the union of queued and dispatched. -/
theorem zio_allocate_dispatch_loop_perm :
    ∀ (fuel : Nat) (st : ThrottleState),
    ((zio_allocate_dispatch_loop fuel st).queued ++
      (zio_allocate_dispatch_loop fuel st).dispatched).Perm
      (st.queued ++ st.dispatched) := by
  intro fuel
  induction fuel with
  | zero =>
    intro st
    exact List.Perm.refl _
  | succ n ih =>
    intro st
    have hperm := zio_io_to_allocate_perm st
    simp only [zio_allocate_dispatch_loop]
    match hio : zio_io_to_allocate st with
    | (none, st2) =>
      rw [hio] at hperm
      exact hperm
    | (some z, st2) =>
      rw [hio] at hperm
      exact (ih st2).trans hperm

/-- Taking the queue head preserves sortedness. -/
theorem zio_io_to_allocate_sorted (st : ThrottleState)
    (h : st.queued.Sorted throttleKeyLE) :
    (zio_io_to_allocate st).2.queued.Sorted throttleKeyLE := by
  obtain ⟨q, infl, lim, disp⟩ := st
  rcases q with _ | ⟨z, rest⟩
  · exact h
  · by_cases hr : infl < lim
    · simp only [zio_io_to_allocate, if_pos hr]
      exact (List.sorted_cons.mp h).2
    · simp only [zio_io_to_allocate, if_neg hr]
      exact h

/-- `zio_dva_throttle` keeps the queue sorted by priority. -/
theorem zio_dva_throttle_sorted (st : ThrottleState) (z : ThrottleZio)
    (h : st.queued.Sorted throttleKeyLE) :
    (zio_dva_throttle st z).2.queued.Sorted throttleKeyLE := by
  unfold zio_dva_throttle
  exact zio_io_to_allocate_sorted _ (List.Sorted.orderedInsert z st.queued h)

/-- `zio_dva_throttle` conserves the submitted writer along with everything
queued or dispatched before. -/
theorem zio_dva_throttle_perm (st : ThrottleState) (z : ThrottleZio) :
    ((zio_dva_throttle st z).2.queued ++
      (zio_dva_throttle st z).2.dispatched).Perm
      (z :: (st.queued ++ st.dispatched)) := by
  unfold zio_dva_throttle
  have h1 := (List.perm_orderedInsert throttleKeyLE z st.queued).append_right
    st.dispatched
  exact (zio_io_to_allocate_perm _).trans h1

/-- Submitting into a class with no free reservation hands nothing out and
keeps the writer queued: the calling context returns without blocking. -/
theorem zio_dva_throttle_full (st : ThrottleState) (z : ThrottleZio)
    (h : st.limit ≤ st.inflight) :
    (zio_dva_throttle st z).1 = none ∧
    z ∈ (zio_dva_throttle st z).2.queued := by
  have hz : z ∈ List.orderedInsert throttleKeyLE z st.queued :=
    (List.mem_orderedInsert throttleKeyLE).mpr (Or.inl rfl)
  unfold zio_dva_throttle zio_io_to_allocate
  rcases hins : List.orderedInsert throttleKeyLE z st.queued with _ | ⟨w, rest⟩
  · rw [hins] at hz
    simp at hz
  · rw [hins] at hz
    simp only [hins]
    rw [if_neg (by omega)]
    exact ⟨rfl, hz⟩

/-- The dispatch loop does nothing once the reservation budget is full. -/
theorem zio_allocate_dispatch_loop_stuck :
    ∀ (fuel : Nat) (st : ThrottleState), st.limit ≤ st.inflight →
    zio_allocate_dispatch_loop fuel st = st
  | 0, _, _ => rfl
  | fuel+1, st, h => by
    have hio : zio_io_to_allocate st = (none, st) := by
      obtain ⟨q, infl, lim, disp⟩ := st
      rcases q with _ | ⟨z, rest⟩
      · rfl
      · simp only [zio_io_to_allocate]
        rw [if_neg (Nat.not_lt.mpr h)]
    simp only [zio_allocate_dispatch_loop, hio]

/-- A completion over an empty queue only releases the reservation. -/
theorem zio_dva_throttle_done_empty (st : ThrottleState) (h : st.queued = []) :
    zio_dva_throttle_done st = { st with inflight := st.inflight - 1 } := by
  unfold zio_dva_throttle_done zio_allocate_dispatch
  simp [h, zio_allocate_dispatch_loop]

/-- A completion over a nonempty queue at a full budget dispatches exactly
the head of the priority queue and refills the budget. -/
theorem zio_dva_throttle_done_cons (st : ThrottleState) (q : ThrottleZio)
    (rest : List ThrottleZio) (hq : st.queued = q :: rest)
    (hfull : st.inflight = st.limit) (hpos : 0 < st.limit) :
    (zio_dva_throttle_done st).queued = rest ∧
    (zio_dva_throttle_done st).inflight = st.limit ∧
    (zio_dva_throttle_done st).dispatched = q :: st.dispatched ∧
    (zio_dva_throttle_done st).limit = st.limit := by
  obtain ⟨q0, infl, lim, disp⟩ := st
  simp only at hq hfull hpos
  subst hq
  subst hfull
  have h2 : zio_dva_throttle_done ⟨q :: rest, infl, infl, disp⟩ =
      zio_allocate_dispatch_loop rest.length
        ⟨rest, infl - 1 + 1, infl, q :: disp⟩ := by
    unfold zio_dva_throttle_done zio_allocate_dispatch
    simp only [List.length_cons, zio_allocate_dispatch_loop, zio_io_to_allocate]
    rw [if_pos (by omega)]
  have h3 : zio_allocate_dispatch_loop rest.length
      ⟨rest, infl - 1 + 1, infl, q :: disp⟩ =
      ⟨rest, infl - 1 + 1, infl, q :: disp⟩ :=
    zio_allocate_dispatch_loop_stuck rest.length _
      (by show infl ≤ infl - 1 + 1; omega)
  rw [h2.trans h3]
  refine ⟨rfl, ?_, rfl, rfl⟩
  show infl - 1 + 1 = infl
  omega

/-- A full class drains strictly via completions: starting with the budget
invariant (a nonempty queue implies a full budget), `queueLength + inflight`
completions empty both the queue and the budget, with no new submissions. -/
theorem doneIter_drains :
    ∀ (n : Nat) (st : ThrottleState), st.inflight ≤ st.limit → 0 < st.limit →
    (st.queued ≠ [] → st.inflight = st.limit) →
    n = st.queued.length + st.inflight →
    (doneIter n st).queued = [] ∧ (doneIter n st).inflight = 0 := by
  intro n
  induction n with
  | zero =>
    intro st h1 h2 h3 h4
    have hlen : st.queued.length = 0 ∧ st.inflight = 0 := by omega
    simp only [doneIter]
    exact ⟨List.length_eq_zero.mp hlen.1, hlen.2⟩
  | succ m ih =>
    intro st h1 h2 h3 h4
    simp only [doneIter]
    cases hq : st.queued with
    | nil =>
      have hlen : st.queued.length = 0 := by rw [hq]; rfl
      have hinfl : st.inflight = m + 1 := by omega
      rw [zio_dva_throttle_done_empty st hq]
      apply ih
      · show st.inflight - 1 ≤ st.limit
        omega
      · exact h2
      · intro hne
        exact absurd hq hne
      · show m = st.queued.length + (st.inflight - 1)
        omega
    | cons a l =>
      have hfull := h3 (by rw [hq]; simp)
      obtain ⟨hq2, hi2, _, hl2⟩ := zio_dva_throttle_done_cons st a l hq hfull h2
      apply ih
      · rw [hi2, hl2]
      · rw [hl2]
        exact h2
      · intro _
        rw [hi2, hl2]
      · rw [hq2, hi2]
        have : st.queued.length = l.length + 1 := by rw [hq]; rfl
        omega

/-- C9 (confirmed).  The allocation throttle: submitting inserts the writer
into the priority-sorted queue and conserves the multiset of queued plus
dispatched writers (never dropped, never duplicated); the queue stays
priority-sorted; a full class hands nothing out and keeps the writer queued,
with the submitting context returning; each completion conserves the
multiset, and at a full budget dispatches exactly the head of the priority
queue; and a full class drains completely via completions alone. -/
theorem zio_dva_throttle_queue_drains :
    (∀ (st : ThrottleState) (z : ThrottleZio),
      ((zio_dva_throttle st z).2.queued ++
        (zio_dva_throttle st z).2.dispatched).Perm
        (z :: (st.queued ++ st.dispatched))) ∧
    (∀ (st : ThrottleState) (z : ThrottleZio),
      st.queued.Sorted throttleKeyLE →
      (zio_dva_throttle st z).2.queued.Sorted throttleKeyLE) ∧
    (∀ (st : ThrottleState) (z : ThrottleZio), st.limit ≤ st.inflight →
      (zio_dva_throttle st z).1 = none ∧
      z ∈ (zio_dva_throttle st z).2.queued) ∧
    (∀ st : ThrottleState,
      ((zio_dva_throttle_done st).queued ++
        (zio_dva_throttle_done st).dispatched).Perm
        (st.queued ++ st.dispatched)) ∧
    (∀ (st : ThrottleState) (q : ThrottleZio) (rest : List ThrottleZio),
      st.queued = q :: rest → st.inflight = st.limit → 0 < st.limit →
      (zio_dva_throttle_done st).queued = rest ∧
      (zio_dva_throttle_done st).dispatched = q :: st.dispatched) ∧
    (∀ st : ThrottleState, st.inflight ≤ st.limit → 0 < st.limit →
      (st.queued ≠ [] → st.inflight = st.limit) →
      (doneIter (st.queued.length + st.inflight) st).queued = [] ∧
      (doneIter (st.queued.length + st.inflight) st).inflight = 0) := by
  refine ⟨zio_dva_throttle_perm, zio_dva_throttle_sorted, zio_dva_throttle_full,
    ?_, ?_, ?_⟩
  · intro st
    exact zio_allocate_dispatch_loop_perm _ _
  · intro st q rest hq hfull hpos
    obtain ⟨h1, _, h3, _⟩ := zio_dva_throttle_done_cons st q rest hq hfull hpos
    exact ⟨h1, h3⟩
  · intro st h1 h2 h3
    exact doneIter_drains _ st h1 h2 h3 rfl

/-- Witness for C9's theorem: one submission into a full single-slot class
stays queued; the completion of the in-flight writer dispatches it; two
completions drain the class. -/
theorem zio_dva_throttle_queue_drains_witness :
    (((zio_dva_throttle ⟨[], 1, 1, []⟩ ⟨1, 5⟩).2.queued ++
        (zio_dva_throttle ⟨[], 1, 1, []⟩ ⟨1, 5⟩).2.dispatched).Perm
        [⟨1, 5⟩] ∧
     (zio_dva_throttle ⟨[], 1, 1, []⟩ ⟨1, 5⟩).2.queued.Sorted throttleKeyLE) ∧
    ((zio_dva_throttle ⟨[], 1, 1, []⟩ ⟨1, 5⟩).1 = none ∧
     (⟨1, 5⟩ : ThrottleZio) ∈ (zio_dva_throttle ⟨[], 1, 1, []⟩ ⟨1, 5⟩).2.queued) ∧
    ((zio_dva_throttle_done ⟨[⟨1, 5⟩], 1, 1, []⟩).queued ++
      (zio_dva_throttle_done ⟨[⟨1, 5⟩], 1, 1, []⟩).dispatched).Perm [⟨1, 5⟩] ∧
    ((zio_dva_throttle_done ⟨[⟨1, 5⟩], 1, 1, []⟩).queued = [] ∧
     (zio_dva_throttle_done ⟨[⟨1, 5⟩], 1, 1, []⟩).dispatched = [⟨1, 5⟩]) ∧
    ((doneIter 2 ⟨[⟨1, 5⟩], 1, 1, []⟩).queued = [] ∧
     (doneIter 2 ⟨[⟨1, 5⟩], 1, 1, []⟩).inflight = 0) :=
  ⟨⟨zio_dva_throttle_queue_drains.1 ⟨[], 1, 1, []⟩ ⟨1, 5⟩,
    zio_dva_throttle_queue_drains.2.1 ⟨[], 1, 1, []⟩ ⟨1, 5⟩ (by simp)⟩,
   zio_dva_throttle_queue_drains.2.2.1 ⟨[], 1, 1, []⟩ ⟨1, 5⟩ (by decide),
   zio_dva_throttle_queue_drains.2.2.2.1 ⟨[⟨1, 5⟩], 1, 1, []⟩,
   zio_dva_throttle_queue_drains.2.2.2.2.1 ⟨[⟨1, 5⟩], 1, 1, []⟩ ⟨1, 5⟩ [] rfl rfl
     (by decide),
   zio_dva_throttle_queue_drains.2.2.2.2.2 ⟨[⟨1, 5⟩], 1, 1, []⟩ (by decide)
     (by decide) (fun _ => rfl)⟩
